import Mathlib

/-!
Verification development for the DSpace statistics indexer
(`dspace_statistics_api/indexer.py`).

The indexer connects to a Solr statistics core, discovers yearly statistics
shards, aggregates per-item view and download counts via faceted queries, and
upserts them into a PostgreSQL `items` table.  The definitions below are a
shallow embedding of that script:

* JSON values and Python-style subscripting (`d[k]` raising `KeyError` on a
  missing dict key and `TypeError` on a non-subscriptable value) model the
  response parsing in `index_views` / `index_downloads` / the shard resolver;
* `get_statistics_shards` embeds the shard-resolution function of the same
  name, including the `^statistics-[0-9]{4}$` core-name filter and the
  comma-separated shard string it builds;
* `Table` / `upsert` embed the `items` table and the per-dimension
  `INSERT ... ON CONFLICT(id) DO UPDATE SET <col>=excluded.<col>` batch
  statement (`psycopg2.extras.execute_values` applies the rows of one VALUES
  batch in order; facet pages are JSON maps, so keys within a page are
  distinct);
* `pageLoop` embeds the `while results_current_page <= results_num_pages`
  pagination loop, recording fetches, batch upserts and commits as events;
* `indexDim` embeds `index_views` / `index_downloads` (identical up to the
  query parameters and facet field), `pipelineRun` embeds the module entry
  (table creation, `get_statistics_shards`, `index_views()`,
  `index_downloads()`), with `exit(0)` and uncaught exceptions as outcomes.

Machine integers are modelled as `Nat`: all counts involved (facet counts,
`countDistinct`) are non-negative, and the Python `int(n / 100)` page count
is floor division (exact for every realistic count; the code comments call
it a round-down).
-/

/-- Python exception kinds that the indexer's code paths can raise:
`KeyError` (missing dict key), `TypeError` (subscripting / iterating a
non-subscriptable value, only this one is caught by the indexer's
`except TypeError`), and `ValueError` (`json.JSONDecodeError` from
`res.json()` on a malformed body). -/
inductive PyErr where
  | keyError
  | typeError
  | valueError
deriving DecidableEq, Repr

/-- JSON values as consumed by the indexer.  Numbers are modelled as `Nat`:
every number the indexer reads (facet counts, `countDistinct`) is a
non-negative integer. -/
inductive Json where
  | null
  | bool (b : Bool)
  | num (n : Nat)
  | str (s : String)
  | arr (elems : List Json)
  | obj (fields : List (String × Json))

/-- Python subscripting `j[k]` with a string key: a dict yields the value or
raises `KeyError`; `None`, numbers, booleans, strings and lists raise
`TypeError` (not subscriptable by a string). -/
def pySubscript : Json → String → Except PyErr Json
  | .obj fields, k =>
    match fields.lookup k with
    | some v => .ok v
    | none => .error .keyError
  | .null, _ => .error .typeError
  | .bool _, _ => .error .typeError
  | .num _, _ => .error .typeError
  | .str _, _ => .error .typeError
  | .arr _, _ => .error .typeError

/-- Elements of a Python list iterated as strings: `re.match` raises
`TypeError` at the first non-string element. -/
def strElems : List Json → Except PyErr (List String)
  | [] => .ok []
  | .str s :: rest =>
    match strElems rest with
    | .ok l => .ok (s :: l)
    | .error e => .error e
  | _ :: _ => .error .typeError

/-- Python iteration `for core in v` as used by `get_statistics_shards`,
yielding strings: iterating a dict yields its keys, a string yields its
characters, a list yields its elements (`TypeError` from `re.match` if one is
not a string); `None`, numbers and booleans are not iterable. -/
def pyIter : Json → Except PyErr (List String)
  | .obj fields => .ok (fields.map (·.1))
  | .str s => .ok (s.data.map (fun c => String.mk [c]))
  | .arr xs => strElems xs
  | .null => .error .typeError
  | .num _ => .error .typeError
  | .bool _ => .error .typeError

/-- The subscript chain
`res.json()["stats"]["stats_fields"][field]["countDistinct"]` inside the
`try` block of `index_views` (`field = "id"`) and `index_downloads`
(`field = "owningItem"`). -/
def statCountDistinct (field : String) (j : Json) : Except PyErr Json :=
  match pySubscript j "stats" with
  | .error e => .error e
  | .ok a =>
    match pySubscript a "stats_fields" with
    | .error e => .error e
    | .ok b =>
      match pySubscript b field with
      | .error e => .error e
      | .ok c => pySubscript c "countDistinct"

/-- An HTTP response from Solr: status code plus parsed body
(`none` models a body `res.json()` fails to parse, raising
`json.JSONDecodeError`, a `ValueError`). -/
structure HttpResp where
  status : Nat
  body : Option Json

/-- The core-name filter `re.compile("^statistics-[0-9]{4}$")` applied with
`pattern.match`: the name is `statistics-` followed by exactly four digits.
Python's `$` also matches just before a single trailing newline, which is
reproduced here for fidelity. -/
def matchesShardCore (s : String) : Bool :=
  let cs := if s.data.getLast? = some '\n' then s.data.dropLast else s.data
  cs.take 11 = "statistics-".data
    && (cs.drop 11).length = 4
    && (cs.drop 11).all (fun c => c.isDigit)

/-- The shard-string construction at the end of `get_statistics_shards`:
an empty string when no yearly cores were found, otherwise the base
`{SOLR_SERVER}/statistics` target followed by `,{SOLR_SERVER}/{core}` for
each matching core in discovery order. -/
def buildShards (srv : String) (years : List String) : String :=
  if 0 < years.length then
    years.foldl (fun acc c => acc ++ ("," ++ (srv ++ "/" ++ c))) (srv ++ "/statistics")
  else ""

/-- Embedding of `get_statistics_shards` (`srv` stands for the external
`SOLR_SERVER` configuration value): on HTTP 200 the body is parsed and
`data["status"]` iterated, keeping the cores matching the yearly pattern; on
any other status the core list stays empty and the function falls through to
return the (then empty) shard string.  Exceptions from parsing, subscripting
or iterating propagate (nothing here is caught). -/
def get_statistics_shards (srv : String) (resp : HttpResp) : Except PyErr String :=
  match (if resp.status = 200 then
          match resp.body with
          | none => Except.error PyErr.valueError
          | some data =>
            match pySubscript data "status" with
            | .error e => .error e
            | .ok st =>
              match pyIter st with
              | .error e => .error e
              | .ok cores => .ok (cores.filter matchesShardCore)
        else Except.ok []) with
  | .error e => .error e
  | .ok years => .ok (buildShards srv years)

/-- A row of the `items` table:
`(id UUID PRIMARY KEY, views INT DEFAULT 0, downloads INT DEFAULT 0)`. -/
structure Row where
  id : String
  views : Nat
  downloads : Nat
deriving DecidableEq, Repr

/-- The `views` column default from the `CREATE TABLE` statement. -/
def viewsDefault : Nat := 0

/-- The `downloads` column default from the `CREATE TABLE` statement. -/
def downloadsDefault : Nat := 0

/-- The `items` table: a list of rows whose `id` column is the primary key. -/
abbrev Table := List Row

/-- The two aggregation dimensions of the pipeline. -/
inductive Dim where
  | views
  | downloads
deriving DecidableEq, Repr

/-- The column a dimension's upsert statement sets:
`SET views=excluded.views` resp. `SET downloads=excluded.downloads`. -/
def setField : Dim → Row → Nat → Row
  | .views, r, v => { r with views := v }
  | .downloads, r, v => { r with downloads := v }

/-- The row inserted when the id is new: the dimension's column gets the
incoming count, the other column its `DEFAULT 0`. -/
def newRow : Dim → String → Nat → Row
  | .views, i, v => ⟨i, v, downloadsDefault⟩
  | .downloads, i, v => ⟨i, viewsDefault, v⟩

/-- An id is present in the table (the `ON CONFLICT(id)` condition). -/
def hasId (t : Table) (i : String) : Prop := ∃ r ∈ t, r.id = i

instance (t : Table) (i : String) : Decidable (hasId t i) := by
  unfold hasId; infer_instance

/-- One row of the batched
`INSERT INTO items(id, <col>) VALUES %s ON CONFLICT(id) DO UPDATE SET
<col>=excluded.<col>`: update the dimension's column of the conflicting row
if the id exists, else insert a fresh row with the other column defaulted. -/
def upsert (d : Dim) (t : Table) (i : String) (v : Nat) : Table :=
  if hasId t i then
    t.map (fun r => if r.id = i then setField d r v else r)
  else t ++ [newRow d i v]

/-- One `psycopg2.extras.execute_values` call: the `(id, count)` rows of a
batch applied in order. -/
def applyBatch (d : Dim) (t : Table) (b : List (String × Nat)) : Table :=
  b.foldl (fun t p => upsert d t p.1 p.2) t

/-- Lookup of a row by primary key. -/
def getRow (t : Table) (i : String) : Option Row :=
  t.find? (fun r => r.id = i)

/-- Observable events of one pipeline run: the initial distinct-count
statistics query of a dimension, a page fetch with its `facet.offset` and
`facet.limit` parameters, the execution of one batched upsert with its
`(id, count)` rows, and a database commit. -/
inductive Ev where
  | statQuery (d : Dim)
  | pageFetch (d : Dim) (offset limit : Nat)
  | batchUpsert (d : Dim) (batch : List (String × Nat))
  | commit (d : Dim)
deriving DecidableEq, Repr

/-- The dimension an event belongs to. -/
def evDim : Ev → Dim
  | .statQuery d => d
  | .pageFetch d _ _ => d
  | .batchUpsert d _ => d
  | .commit d => d

/-- The `while results_current_page <= results_num_pages` loop of
`index_views` / `index_downloads`: each iteration fetches the facet page at
`facet.offset = results_current_page * 100` with `facet.limit = 100`
(`results_per_page = 100`), appends the page's `(id, count)` pairs to the
accumulated `data` list, executes the batched upsert with that list, commits,
clears the list (`data.clear()`, modelled by passing `[]` to the next
iteration), and increments the page counter.  `pages k` is the facet map the
backend returns for page `k`. -/
def pageLoop (d : Dim) (pages : Nat → List (String × Nat)) (numPages cur : Nat)
    (data : List (String × Nat)) (t : Table) : List Ev × Table :=
  if h : cur ≤ numPages then
    let batch := data ++ pages cur
    let t' := applyBatch d t batch
    let rest := pageLoop d pages numPages (cur + 1) [] t'
    (Ev.pageFetch d (cur * 100) 100 :: Ev.batchUpsert d batch :: Ev.commit d :: rest.1,
     rest.2)
  else ([], t)
termination_by numPages + 1 - cur
decreasing_by omega

/-- The facet field of a dimension: `id` for views, `owningItem` for
downloads. -/
def facetField : Dim → String
  | .views => "id"
  | .downloads => "owningItem"

/-- Outcome of one dimension's indexing function: it ran all pages, it took
the `except TypeError` branch (printing "No item ... to index, exiting." and
calling `exit(0)`, which terminates the whole process with code 0), or an
exception escaped it. -/
inductive IndexResult where
  | completed (tr : List Ev) (t : Table)
  | emptyExit (tr : List Ev) (t : Table)
  | raised (e : PyErr) (tr : List Ev) (t : Table)

/-- Embedding of `index_views` / `index_downloads` (the two functions are
identical up to query parameters and the facet field).  The `try` block reads
`countDistinct` out of the statistics response; only `TypeError` is caught
(leading to `exit(0)`), every other exception propagates.  On a numeric
count `n` the page count is `int(n / 100)` — floor division — and the page
loop runs; a non-numeric count reaches `int(... / 100)` outside the `try`
and raises an uncaught `TypeError` there. -/
def indexDim (d : Dim) (stat : Json) (pages : Nat → List (String × Nat))
    (t : Table) : IndexResult :=
  match statCountDistinct (facetField d) stat with
  | .error .typeError => .emptyExit [Ev.statQuery d] t
  | .error e => .raised e [Ev.statQuery d] t
  | .ok (.num n) =>
    let res := pageLoop d pages (n / 100) 0 [] t
    .completed (Ev.statQuery d :: res.1) res.2
  | .ok _ => .raised .typeError [Ev.statQuery d] t

/-- `index_views`, specialised from the common embedding. -/
def index_views (stat : Json) (pages : Nat → List (String × Nat)) (t : Table) :
    IndexResult :=
  indexDim .views stat pages t

/-- `index_downloads`, specialised from the common embedding. -/
def index_downloads (stat : Json) (pages : Nat → List (String × Nat)) (t : Table) :
    IndexResult :=
  indexDim .downloads stat pages t

/-- Final state of a whole run: normal completion (process exit 0), the
`exit(0)` taken on an empty dimension (also process exit 0, and nothing
after it runs), or termination by an uncaught exception (non-zero exit). -/
inductive Final where
  | ok (tr : List Ev) (t : Table)
  | earlyExit0 (tr : List Ev) (t : Table)
  | exn (e : PyErr) (tr : List Ev) (t : Table)

/-- The `index_views(); index_downloads()` sequence of the module entry:
`index_views` runs first; if it calls `exit(0)` or raises, the process ends
there and `index_downloads` never starts; otherwise `index_downloads` runs
on the resulting table. -/
def runDims (vStat : Json) (vPages : Nat → List (String × Nat)) (dStat : Json)
    (dPages : Nat → List (String × Nat)) (t : Table) : Final :=
  match index_views vStat vPages t with
  | .raised e tr t' => .exn e tr t'
  | .emptyExit tr t' => .earlyExit0 tr t'
  | .completed tr₁ t₁ =>
    match index_downloads dStat dPages t₁ with
    | .raised e tr₂ t₂ => .exn e (tr₁ ++ tr₂) t₂
    | .emptyExit tr₂ t₂ => .earlyExit0 (tr₁ ++ tr₂) t₂
    | .completed tr₂ t₂ => .ok (tr₁ ++ tr₂) t₂

/-- The module entry: the `items` table is created `IF NOT EXISTS` (a no-op
on the existing state `t`), `shards = get_statistics_shards()` runs (an
exception there aborts the run; the resulting shard string is only
interpolated into the Solr query parameters and never branches the control
flow, so the dimension runs take the page responses directly), then the two
dimensions are indexed in order. -/
def pipelineRun (resp : HttpResp) (srv : String) (vStat : Json)
    (vPages : Nat → List (String × Nat)) (dStat : Json)
    (dPages : Nat → List (String × Nat)) (t : Table) : Final :=
  match get_statistics_shards srv resp with
  | .error e => .exn e [] t
  | .ok _shards => runDims vStat vPages dStat dPages t

/-- The process exit code of a final state: `0` for normal completion and
for the empty-dimension `exit(0)`, `1` for an uncaught exception. -/
def exitCodeOf : Final → Nat
  | .ok _ _ => 0
  | .earlyExit0 _ _ => 0
  | .exn _ _ _ => 1

/-- The event trace of a final state. -/
def traceOf : Final → List Ev
  | .ok tr _ => tr
  | .earlyExit0 tr _ => tr
  | .exn _ tr _ => tr

/-- The table of a final state. -/
def tableOf : Final → Table
  | .ok _ t => t
  | .earlyExit0 _ t => t
  | .exn _ _ t => t

/-- The event trace of one dimension's result. -/
def trOf : IndexResult → List Ev
  | .completed tr _ => tr
  | .emptyExit tr _ => tr
  | .raised _ tr _ => tr

/-- The canonical event sequence of a list of page indices: for each index,
a fetch at `offset = k * 100, limit = 100`, the batched upsert of page `k`,
and a commit. -/
def evChunks (d : Dim) (pages : Nat → List (String × Nat)) : List Nat → List Ev
  | [] => []
  | k :: ks =>
    Ev.pageFetch d (k * 100) 100 :: Ev.batchUpsert d (pages k) :: Ev.commit d ::
      evChunks d pages ks

/-- Concatenation of the pages at the given indices. -/
def pagesConcat (pages : Nat → List (String × Nat)) : List Nat → List (String × Nat)
  | [] => []
  | k :: ks => pages k ++ pagesConcat pages ks

/-- The `(facet.offset, facet.limit)` parameters of the page fetches in a
trace. -/
def fetchParams (tr : List Ev) : List (Nat × Nat) :=
  tr.filterMap fun e =>
    match e with
    | .pageFetch _ o l => some (o, l)
    | _ => none

/-- The number of commits in a trace. -/
def commitCount (tr : List Ev) : Nat :=
  (tr.filter fun e =>
    match e with
    | .commit _ => true
    | _ => false).length

/-- The batches submitted by the upsert statements in a trace, in order. -/
def batchesOf (tr : List Ev) : List (List (String × Nat)) :=
  tr.filterMap fun e =>
    match e with
    | .batchUpsert _ b => some b
    | _ => none

/-- Comma-joined rendering of a list of shard targets. -/
def joinComma : List String → String
  | [] => ""
  | [x] => x
  | x :: y :: rest => x ++ "," ++ joinComma (y :: rest)

/-- A statistics response whose `stats.stats_fields.<field>` entry is `v`
(Solr returns `null` there when no documents match, and an object with a
`countDistinct` member otherwise). -/
def statJson (field : String) (v : Json) : Json :=
  .obj [("stats", .obj [("stats_fields", .obj [(field, v)])])]

/-- A statistics response reporting `countDistinct = n` for `field`. -/
def statOk (field : String) (n : Nat) : Json :=
  statJson field (.obj [("countDistinct", .num n)])

/-! ### Basic facts about the upsert row operations -/

lemma setField_id (d : Dim) (r : Row) (v : Nat) : (setField d r v).id = r.id := by
  cases d <;> rfl

lemma newRow_id (d : Dim) (i : String) (v : Nat) : (newRow d i v).id = i := by
  cases d <;> rfl

lemma setField_setField (d : Dim) (r : Row) (w v : Nat) :
    setField d (setField d r w) v = setField d r v := by
  cases d <;> rfl

lemma setField_newRow (d : Dim) (i : String) (w v : Nat) :
    setField d (newRow d i w) v = newRow d i v := by
  cases d <;> rfl

lemma setField_comm {d e : Dim} (hne : d ≠ e) (r : Row) (w v : Nat) :
    setField d (setField e r w) v = setField e (setField d r v) w := by
  cases d <;> cases e <;> first | rfl | exact absurd rfl hne

/-- One conditional column update, as applied to each row of the table by a
conflicting insert. -/
def chainStep (d : Dim) (r : Row) (p : String × Nat) : Row :=
  if r.id = p.1 then setField d r p.2 else r

/-- The cumulative effect of a list of upsert rows on one table row. -/
def chain (d : Dim) (L : List (String × Nat)) (r : Row) : Row :=
  L.foldl (chainStep d) r

lemma chainStep_id (d : Dim) (r : Row) (p : String × Nat) :
    (chainStep d r p).id = r.id := by
  unfold chainStep; split <;> simp [setField_id]

lemma chain_cons (d : Dim) (p : String × Nat) (L : List (String × Nat)) (r : Row) :
    chain d (p :: L) r = chain d L (chainStep d r p) := rfl

lemma chain_id (d : Dim) (L : List (String × Nat)) (r : Row) :
    (chain d L r).id = r.id := by
  induction L generalizing r with
  | nil => rfl
  | cons p L ih => rw [chain_cons, ih, chainStep_id]

lemma chain_eq_of_not_written (d : Dim) {L : List (String × Nat)} {r : Row}
    (h : ∀ p ∈ L, p.1 ≠ r.id) : chain d L r = r := by
  induction L with
  | nil => rfl
  | cons p L ih =>
    rw [chain_cons]
    have hp : r.id = p.1 ↔ False := by
      simp only [iff_false]
      exact fun he => h p (by simp) he.symm
    rw [chainStep, if_neg (hp.mp ∘ id)]
    exact ih fun q hq => h q (by simp [hq])

lemma chain_setField_of_written (d : Dim) {L : List (String × Nat)} {r : Row}
    (v : Nat) (h : ∃ p ∈ L, p.1 = r.id) :
    chain d L (setField d r v) = chain d L r := by
  induction L generalizing r v with
  | nil => simp at h
  | cons q L ih =>
    rw [chain_cons, chain_cons]
    by_cases hq : r.id = q.1
    · have h1 : chainStep d (setField d r v) q = setField d r q.2 := by
        rw [chainStep, if_pos (by rw [setField_id]; exact hq), setField_setField]
      have h2 : chainStep d r q = setField d r q.2 := by rw [chainStep, if_pos hq]
      rw [h1, h2]
    · have h1 : chainStep d (setField d r v) q = setField d r v := by
        rw [chainStep, if_neg (by rw [setField_id]; exact hq)]
      have h2 : chainStep d r q = r := by rw [chainStep, if_neg hq]
      rw [h1, h2]
      rcases h with ⟨p, hp, hpid⟩
      rcases List.mem_cons.mp hp with rfl | hpL
      · exact absurd hpid.symm hq
      · exact ih v ⟨p, hpL, hpid⟩

lemma chain_setField_other {d e : Dim} (hne : d ≠ e) (L : List (String × Nat))
    (r : Row) (w : Nat) :
    chain d L (setField e r w) = setField e (chain d L r) w := by
  induction L generalizing r with
  | nil => rfl
  | cons p L ih =>
    rw [chain_cons, chain_cons]
    by_cases hp : r.id = p.1
    · have h1 : chainStep d (setField e r w) p = setField e (setField d r p.2) w := by
        rw [chainStep, if_pos (by rw [setField_id]; exact hp)]
        exact setField_comm hne r w p.2
      rw [h1, chainStep, if_pos hp, ih]
    · have h1 : chainStep d (setField e r w) p = setField e r w := by
        rw [chainStep, if_neg (by rw [setField_id]; exact hp)]
      rw [h1, chainStep, if_neg hp, ih]

/-! ### Membership and batch lemmas -/

lemma applyBatch_nil (d : Dim) (t : Table) : applyBatch d t [] = t := rfl

lemma applyBatch_cons (d : Dim) (t : Table) (p : String × Nat)
    (L : List (String × Nat)) :
    applyBatch d t (p :: L) = applyBatch d (upsert d t p.1 p.2) L := rfl

lemma applyBatch_append (d : Dim) (t : Table) (a b : List (String × Nat)) :
    applyBatch d t (a ++ b) = applyBatch d (applyBatch d t a) b := by
  simp [applyBatch, List.foldl_append]

lemma hasId_map_of_id_pres {f : Row → Row} (hf : ∀ r, (f r).id = r.id)
    (t : Table) (i : String) : hasId (t.map f) i ↔ hasId t i := by
  unfold hasId
  constructor
  · rintro ⟨r, hr, hid⟩
    rcases List.mem_map.mp hr with ⟨r₀, hr₀, rfl⟩
    exact ⟨r₀, hr₀, by rw [← hf r₀]; exact hid⟩
  · rintro ⟨r, hr, hid⟩
    exact ⟨f r, List.mem_map.mpr ⟨r, hr, rfl⟩, by rw [hf r]; exact hid⟩

lemma hasId_upsert (d : Dim) (t : Table) (j i : String) (v : Nat) :
    hasId (upsert d t j v) i ↔ hasId t i ∨ i = j := by
  unfold upsert
  split
  · next hyes =>
    rw [hasId_map_of_id_pres (fun r => by
      by_cases h : r.id = j <;> simp [h, setField_id])]
    constructor
    · exact Or.inl
    · rintro (h | rfl)
      · exact h
      · exact hyes
  · next hno =>
    unfold hasId
    simp only [List.mem_append, List.mem_singleton]
    constructor
    · rintro ⟨r, hr | hr, hid⟩
      · exact Or.inl ⟨r, hr, hid⟩
      · subst hr
        exact Or.inr (by rw [← hid, newRow_id])
    · rintro (⟨r, hr, hid⟩ | heq)
      · exact ⟨r, Or.inl hr, hid⟩
      · exact ⟨newRow d j v, Or.inr rfl, (newRow_id d j v).trans heq.symm⟩

lemma hasId_applyBatch_mono (d : Dim) {t : Table} {i : String}
    (L : List (String × Nat)) (h : hasId t i) : hasId (applyBatch d t L) i := by
  induction L generalizing t with
  | nil => exact h
  | cons p L ih =>
    rw [applyBatch_cons]
    exact ih ((hasId_upsert d t p.1 i p.2).mpr (Or.inl h))

lemma hasId_applyBatch_of_mem (d : Dim) (t : Table) {L : List (String × Nat)}
    {p : String × Nat} (hp : p ∈ L) : hasId (applyBatch d t L) p.1 := by
  induction L generalizing t with
  | nil => simp at hp
  | cons q L ih =>
    rw [applyBatch_cons]
    rcases List.mem_cons.mp hp with rfl | hpL
    · exact hasId_applyBatch_mono d L
        ((hasId_upsert d t p.1 p.1 p.2).mpr (Or.inr rfl))
    · exact ih _ hpL

lemma upsert_eq_map (d : Dim) {t : Table} {j : String} (v : Nat)
    (h : hasId t j) : upsert d t j v = t.map (fun r => chainStep d r (j, v)) := by
  rw [upsert, if_pos h]
  rfl

lemma applyBatch_eq_map (d : Dim) {t : Table} {L : List (String × Nat)}
    (h : ∀ p ∈ L, hasId t p.1) :
    applyBatch d t L = t.map (fun r => chain d L r) := by
  induction L generalizing t with
  | nil =>
    rw [applyBatch_nil]
    exact (List.map_id t).symm
  | cons p L ih =>
    rw [applyBatch_cons, upsert_eq_map d p.2 (h p (by simp))]
    rw [ih fun q hq => (hasId_map_of_id_pres (fun r => chainStep_id d r (p.1, p.2))
      t q.1).mpr (h q (by simp [hq]))]
    rw [List.map_map]
    exact List.map_congr_left fun r _ => rfl

lemma mem_of_mem_applyBatch_not_written (d : Dim) {t : Table}
    {L : List (String × Nat)} {r : Row} (hr : r ∈ applyBatch d t L)
    (h : ∀ p ∈ L, p.1 ≠ r.id) : r ∈ t := by
  induction L generalizing t with
  | nil => exact hr
  | cons q L ih =>
    rw [applyBatch_cons] at hr
    have hru : r ∈ upsert d t q.1 q.2 := ih hr fun p hp => h p (by simp [hp])
    rw [upsert] at hru
    split at hru
    · rcases List.mem_map.mp hru with ⟨r₀, hr₀, heq⟩
      by_cases hid : r₀.id = q.1
      · rw [if_pos hid] at heq
        have hrid : r.id = q.1 := by rw [← heq, setField_id]; exact hid
        exact absurd hrid.symm (h q (by simp))
      · rw [if_neg hid] at heq
        exact heq ▸ hr₀
    · rcases List.mem_append.mp hru with hrt | hrn
      · exact hrt
      · rw [List.mem_singleton] at hrn
        have hrid : r.id = q.1 := by rw [hrn, newRow_id]
        exact absurd hrid.symm (h q (by simp))

lemma chain_fix_of_mem_applyBatch (d : Dim) {t : Table} {L : List (String × Nat)}
    {r : Row} (hr : r ∈ applyBatch d t L) : chain d L r = r := by
  induction L generalizing t with
  | nil => rfl
  | cons p L ih =>
    rw [applyBatch_cons] at hr
    rw [chain_cons]
    by_cases hid : r.id = p.1
    · rw [chainStep, if_pos hid]
      by_cases hw : ∃ q ∈ L, q.1 = r.id
      · rw [chain_setField_of_written d p.2 hw]
        exact ih hr
      · push_neg at hw
        rw [chain_eq_of_not_written d (by
          intro q hq
          rw [setField_id]
          exact hw q hq)]
        have hru : r ∈ upsert d t p.1 p.2 :=
          mem_of_mem_applyBatch_not_written d hr fun q hq he => hw q hq (he ▸ rfl)
        rw [upsert] at hru
        split at hru
        · rcases List.mem_map.mp hru with ⟨r₀, hr₀, heq⟩
          by_cases hid₀ : r₀.id = p.1
          · rw [if_pos hid₀] at heq
            rw [← heq, setField_setField]
          · rw [if_neg hid₀] at heq
            exact absurd (heq ▸ hid) hid₀
        · next hno =>
          rcases List.mem_append.mp hru with hrt | hrn
          · exact absurd ⟨r, hrt, hid⟩ hno
          · rw [List.mem_singleton] at hrn
            rw [hrn, setField_newRow]
    · rw [chainStep, if_neg hid]
      exact ih hr

lemma chain_fix_preserved {d e : Dim} (hne : d ≠ e) {L₁ L₂ : List (String × Nat)} :
    ∀ {t' : Table}, (∀ p ∈ L₁, hasId t' p.1) → (∀ r' ∈ t', chain d L₁ r' = r') →
      ∀ r ∈ applyBatch e t' L₂, chain d L₁ r = r := by
  induction L₂ with
  | nil => exact fun _ hfix r hr => hfix r hr
  | cons q L₂ ih =>
    intro t' hkeys hfix r hr
    rw [applyBatch_cons] at hr
    refine ih
      (fun p hp => (hasId_upsert e t' q.1 p.1 q.2).mpr (Or.inl (hkeys p hp)))
      ?_ r hr
    intro r' hr'
    rw [upsert] at hr'
    split at hr'
    · rcases List.mem_map.mp hr' with ⟨r₀, hr₀, heq⟩
      by_cases hid₀ : r₀.id = q.1
      · rw [if_pos hid₀] at heq
        rw [← heq, chain_setField_other hne, hfix r₀ hr₀]
      · rw [if_neg hid₀] at heq
        exact heq ▸ hfix r₀ hr₀
    · next hno =>
      rcases List.mem_append.mp hr' with hrt | hrn
      · exact hfix r' hrt
      · rw [List.mem_singleton] at hrn
        subst hrn
        refine chain_eq_of_not_written d ?_
        intro p hp
        rw [newRow_id]
        intro he
        exact hno (he ▸ hkeys p hp)

/-- The stored table after one full run's upserts: first the concatenated
views batches, then the concatenated downloads batches. -/
def runTables (d e : Dim) (L₁ L₂ : List (String × Nat)) (t : Table) : Table :=
  applyBatch e (applyBatch d t L₁) L₂

lemma runTables_idem {d e : Dim} (hne : d ≠ e) (L₁ L₂ : List (String × Nat))
    (t : Table) :
    runTables d e L₁ L₂ (runTables d e L₁ L₂ t) = runTables d e L₁ L₂ t := by
  set T := runTables d e L₁ L₂ t with hT
  have hKeys1 : ∀ p ∈ L₁, hasId T p.1 := fun p hp =>
    hasId_applyBatch_mono e L₂ (hasId_applyBatch_of_mem d t hp)
  have hKeys2 : ∀ p ∈ L₂, hasId T p.1 := fun p hp =>
    hasId_applyBatch_of_mem e (applyBatch d t L₁) hp
  have hfd : ∀ r ∈ T, chain d L₁ r = r := by
    rw [hT]
    exact chain_fix_preserved hne
      (fun p hp => hasId_applyBatch_of_mem d t hp)
      (fun r' hr' => chain_fix_of_mem_applyBatch d hr')
  have hfe : ∀ r ∈ T, chain e L₂ r = r := fun r hr =>
    chain_fix_of_mem_applyBatch e hr
  calc runTables d e L₁ L₂ T
      = applyBatch e (T.map (fun r => chain d L₁ r)) L₂ := by
        rw [runTables, applyBatch_eq_map d hKeys1]
    _ = (T.map (fun r => chain d L₁ r)).map (fun r => chain e L₂ r) := by
        rw [applyBatch_eq_map e fun p hp =>
          (hasId_map_of_id_pres (fun r => chain_id d L₁ r) T p.1).mpr (hKeys2 p hp)]
    _ = T.map (fun r => chain e L₂ (chain d L₁ r)) := by rw [List.map_map]; rfl
    _ = T.map id := List.map_congr_left fun r hr => by
        rw [hfd r hr, hfe r hr]; rfl
    _ = T := List.map_id T

lemma applyBatch_idem (d : Dim) (L : List (String × Nat)) (t : Table) :
    applyBatch d (applyBatch d t L) L = applyBatch d t L := by
  cases d
  · simpa [runTables, applyBatch_nil] using
      runTables_idem (d := .views) (e := .downloads) (by simp) L [] t
  · simpa [runTables, applyBatch_nil] using
      runTables_idem (d := .downloads) (e := .views) (by simp) L [] t

/-! ### The pagination loop in canonical form -/

lemma pageLoop_canon (d : Dim) (pages : Nat → List (String × Nat)) (n : Nat) :
    ∀ (f cur : Nat) (t : Table), n + 1 - cur = f →
      pageLoop d pages n cur [] t =
        (evChunks d pages (List.range' cur f),
         applyBatch d t (pagesConcat pages (List.range' cur f))) := by
  intro f
  induction f with
  | zero =>
    intro cur t h
    have hcur : ¬ cur ≤ n := by omega
    rw [pageLoop, dif_neg hcur]
    rfl
  | succ f ih =>
    intro cur t h
    have hcur : cur ≤ n := by omega
    rw [pageLoop, dif_pos hcur]
    dsimp only [List.nil_append]
    rw [ih (cur + 1) (applyBatch d t (pages cur)) (by omega), List.range'_succ]
    dsimp only [evChunks, pagesConcat]
    rw [applyBatch_append]

lemma pageLoop_zero (d : Dim) (pages : Nat → List (String × Nat)) (n : Nat)
    (t : Table) :
    pageLoop d pages n 0 [] t =
      (evChunks d pages (List.range (n + 1)),
       applyBatch d t (pagesConcat pages (List.range (n + 1)))) := by
  rw [List.range_eq_range']
  exact pageLoop_canon d pages n (n + 1) 0 t (by omega)

lemma fetchParams_evChunks (d : Dim) (pages : Nat → List (String × Nat)) :
    ∀ ks : List Nat,
      fetchParams (evChunks d pages ks) = ks.map (fun k => (k * 100, 100)) := by
  intro ks
  induction ks with
  | nil => rfl
  | cons k ks ih => simp [evChunks, fetchParams, List.filterMap_cons] at ih ⊢; exact ih

lemma commitCount_evChunks (d : Dim) (pages : Nat → List (String × Nat)) :
    ∀ ks : List Nat, commitCount (evChunks d pages ks) = ks.length := by
  intro ks
  induction ks with
  | nil => rfl
  | cons k ks ih => simp [evChunks, commitCount, List.filter_cons] at ih ⊢; exact ih

lemma batchesOf_evChunks (d : Dim) (pages : Nat → List (String × Nat)) :
    ∀ ks : List Nat, batchesOf (evChunks d pages ks) = ks.map pages := by
  intro ks
  induction ks with
  | nil => rfl
  | cons k ks ih => simp [evChunks, batchesOf, List.filterMap_cons] at ih ⊢; exact ih

lemma evDim_evChunks (d : Dim) (pages : Nat → List (String × Nat)) :
    ∀ ks : List Nat, ∀ e ∈ evChunks d pages ks, evDim e = d := by
  intro ks
  induction ks with
  | nil => simp [evChunks]
  | cons k ks ih =>
    intro e he
    simp only [evChunks, List.mem_cons] at he
    rcases he with rfl | rfl | rfl | he
    · rfl
    · rfl
    · rfl
    · exact ih e he

/-! ### Row lookup lemmas for column independence -/

lemma getRow_map_of_id_pres {f : Row → Row} (hf : ∀ r, (f r).id = r.id)
    (t : Table) (i : String) : getRow (t.map f) i = (getRow t i).map f := by
  induction t with
  | nil => rfl
  | cons r t ih =>
    by_cases h : r.id = i
    · simp [getRow, List.find?_cons, hf r, h]
    · simp only [getRow, List.map_cons, List.find?_cons] at ih ⊢
      rw [show (decide ((f r).id = i)) = false by simp [hf r, h],
        show (decide (r.id = i)) = false by simp [h]]
      exact ih

lemma getRow_append_of_found {t : Table} {i : String} {r : Row}
    (h : getRow t i = some r) (t' : Table) : getRow (t ++ t') i = some r := by
  induction t with
  | nil => simp [getRow] at h
  | cons a t ih =>
    rw [getRow, List.find?_cons] at h
    rw [getRow, List.cons_append, List.find?_cons]
    cases hd : decide (a.id = i) with
    | true => rw [hd] at h; exact h
    | false => rw [hd] at h; exact ih h

/-- The column of a row that the dimension's upsert statement does not touch. -/
def otherField : Dim → Row → Nat
  | .views, r => r.downloads
  | .downloads, r => r.views

lemma otherField_setField (d : Dim) (r : Row) (v : Nat) :
    otherField d (setField d r v) = otherField d r := by
  cases d <;> rfl

lemma getRow_upsert_other (d : Dim) {t : Table} {i : String} {r : Row}
    (j : String) (v : Nat) (h : getRow t i = some r) :
    ∃ r', getRow (upsert d t j v) i = some r' ∧ r'.id = r.id ∧
      otherField d r' = otherField d r := by
  rw [upsert]
  split
  · rw [getRow_map_of_id_pres (fun r => by
      by_cases hr : r.id = j <;> simp [hr, setField_id]), h]
    refine ⟨_, rfl, ?_⟩
    by_cases hr : r.id = j <;> simp [hr, setField_id, otherField_setField]
  · exact ⟨r, getRow_append_of_found h _, rfl, rfl⟩

lemma getRow_applyBatch_other (d : Dim) {t : Table} {i : String} {r : Row}
    (b : List (String × Nat)) (h : getRow t i = some r) :
    ∃ r', getRow (applyBatch d t b) i = some r' ∧ r'.id = r.id ∧
      otherField d r' = otherField d r := by
  induction b generalizing t r with
  | nil => exact ⟨r, h, rfl, rfl⟩
  | cons p b ih =>
    rw [applyBatch_cons]
    rcases getRow_upsert_other d p.1 p.2 h with ⟨r₁, h₁, hid₁, hof₁⟩
    rcases ih h₁ with ⟨r₂, h₂, hid₂, hof₂⟩
    exact ⟨r₂, h₂, hid₂.trans hid₁, hof₂.trans hof₁⟩

/-! ### Shard string lemmas -/

lemma joinComma_append_left (a x : String) (l : List String) :
    joinComma ((a ++ x) :: l) = a ++ joinComma (x :: l) := by
  cases l with
  | nil => rfl
  | cons y rest => simp [joinComma, String.append_assoc]

lemma foldl_comma (srv : String) :
    ∀ (ys : List String) (acc : String),
      ys.foldl (fun a c => a ++ ("," ++ (srv ++ "/" ++ c))) acc =
        joinComma (acc :: ys.map (fun c => srv ++ "/" ++ c)) := by
  intro ys
  induction ys with
  | nil => intro acc; rfl
  | cons y ys ih =>
    intro acc
    simp only [List.foldl_cons]
    rw [ih, List.map_cons]
    rw [joinComma_append_left acc ("," ++ (srv ++ "/" ++ y))]
    rw [joinComma_append_left "," (srv ++ "/" ++ y)]
    conv_rhs => rw [joinComma]
    exact (String.append_assoc acc "," _).symm

/-! ### Reductions of the dimension indexer -/

lemma indexDim_completed {d : Dim} {stat : Json} {n : Nat}
    (h : statCountDistinct (facetField d) stat = .ok (.num n))
    (pages : Nat → List (String × Nat)) (t : Table) :
    indexDim d stat pages t =
      .completed (Ev.statQuery d :: evChunks d pages (List.range (n / 100 + 1)))
        (applyBatch d t (pagesConcat pages (List.range (n / 100 + 1)))) := by
  simp only [indexDim, h, pageLoop_zero]

lemma indexDim_emptyExit {d : Dim} {stat : Json}
    (h : statCountDistinct (facetField d) stat = .error .typeError)
    (pages : Nat → List (String × Nat)) (t : Table) :
    indexDim d stat pages t = .emptyExit [Ev.statQuery d] t := by
  simp only [indexDim, h]

lemma fetchParams_statQuery (d : Dim) (tr : List Ev) :
    fetchParams (Ev.statQuery d :: tr) = fetchParams tr := by
  simp [fetchParams, List.filterMap_cons]

lemma commitCount_statQuery (d : Dim) (tr : List Ev) :
    commitCount (Ev.statQuery d :: tr) = commitCount tr := by
  simp [commitCount, List.filter_cons]

lemma batchesOf_statQuery (d : Dim) (tr : List Ev) :
    batchesOf (Ev.statQuery d :: tr) = batchesOf tr := by
  simp [batchesOf, List.filterMap_cons]

/-- The canonical event trace of one completed dimension run with distinct
count `n`: the statistics query, then for each page index
`0 .. n / 100` (inclusive) a fetch, the batched upsert and a commit. -/
def dimTrace (d : Dim) (pages : Nat → List (String × Nat)) (n : Nat) : List Ev :=
  Ev.statQuery d :: evChunks d pages (List.range (n / 100 + 1))

lemma pairwise_fetch_offsets (d : Dim) (pages : Nat → List (String × Nat)) (n : Nat) :
    List.Pairwise (· < ·) ((fetchParams (dimTrace d pages n)).map Prod.fst) := by
  rw [dimTrace, fetchParams_statQuery, fetchParams_evChunks, List.map_map]
  rw [show (Prod.fst ∘ fun k : Nat => (k * 100, 100)) = fun k : Nat => k * 100 from rfl]
  exact List.Pairwise.map _ (fun a b hab => by omega) (List.pairwise_lt_range _)

lemma commitCount_dimTrace (d : Dim) (pages : Nat → List (String × Nat)) (n : Nat) :
    commitCount (dimTrace d pages n) = n / 100 + 1 := by
  rw [dimTrace, commitCount_statQuery, commitCount_evChunks, List.length_range]

lemma evDim_dimTrace (d : Dim) (pages : Nat → List (String × Nat)) (n : Nat) :
    ∀ e ∈ dimTrace d pages n, evDim e = d := by
  intro e he
  rw [dimTrace, List.mem_cons] at he
  rcases he with rfl | he
  · rfl
  · exact evDim_evChunks d pages _ e he

/-- The Solr admin STATUS response whose active-core map has the given
fields. -/
def statusResp (stFields : List (String × Json)) : HttpResp :=
  ⟨200, some (.obj [("status", .obj stFields)])⟩

/-! ### Claims -/

/-- C3: for every distinct-count value `N` and page size `P = 100`, a
dimension's aggregation fetches exactly `N / 100 + 1` pages (floor division,
so the inclusive range `0 .. N / 100` even when `N` is an exact multiple of
`100`), the page at index `k` being requested with `facet.offset = k * 100`
and `facet.limit = 100`. -/
theorem c3_page_schedule (d : Dim) (stat : Json) (pages : Nat → List (String × Nat))
    (t : Table) (n : Nat)
    (h : statCountDistinct (facetField d) stat = .ok (.num n)) :
    fetchParams (trOf (indexDim d stat pages t)) =
      (List.range (n / 100 + 1)).map (fun k => (k * 100, 100)) ∧
    (fetchParams (trOf (indexDim d stat pages t))).length = n / 100 + 1 := by
  have htr : fetchParams (trOf (indexDim d stat pages t)) =
      (List.range (n / 100 + 1)).map (fun k => (k * 100, 100)) := by
    rw [indexDim_completed h pages t]
    simp only [trOf]
    rw [fetchParams_statQuery, fetchParams_evChunks]
  exact ⟨htr, by rw [htr, List.length_map, List.length_range]⟩

/-- Witness for C3 at the exact-multiple count `N = 200`: three pages are
fetched, at offsets 0, 100 and 200, each with limit 100. -/
theorem c3_page_schedule_witness :
    statCountDistinct (facetField .views) (statOk "id" 200) = .ok (.num 200) ∧
    fetchParams (trOf (indexDim .views (statOk "id" 200) (fun _ => []) [])) =
      [(0, 100), (100, 100), (200, 100)] := by
  refine ⟨by rfl, ?_⟩
  rw [(c3_page_schedule .views (statOk "id" 200) (fun _ => []) [] 200 (by rfl)).1]
  rfl

/-- C4: upserting a batch for one dimension leaves every existing row's
value for the other dimension unchanged: the merge updates only the current
dimension's column. -/
theorem c4_column_independence (t : Table) (b : List (String × Nat)) (i : String)
    (r : Row) (h : getRow t i = some r) :
    (∃ r', getRow (applyBatch .views t b) i = some r' ∧
      r'.downloads = r.downloads) ∧
    (∃ r', getRow (applyBatch .downloads t b) i = some r' ∧
      r'.views = r.views) := by
  constructor
  · rcases getRow_applyBatch_other .views b h with ⟨r', h', _, hof⟩
    exact ⟨r', h', hof⟩
  · rcases getRow_applyBatch_other .downloads b h with ⟨r', h', _, hof⟩
    exact ⟨r', h', hof⟩

/-- Witness for C4: a views batch over a row with downloads value 7 leaves
that downloads value at 7. -/
theorem c4_column_independence_witness :
    getRow [Row.mk "A" 1 7] "A" = some (Row.mk "A" 1 7) ∧
    (∃ r', getRow (applyBatch .views [Row.mk "A" 1 7] [("A", 5)]) "A" = some r' ∧
      r'.downloads = 7) :=
  ⟨rfl, (c4_column_independence [Row.mk "A" 1 7] [("A", 5)] "A" (Row.mk "A" 1 7) rfl).1⟩

/-- C5: from an empty table, the views page `[(A,5),(B,3)]` followed by the
downloads page `[(A,2)]` yields the row `(views=5, downloads=2)` for `A` and
`(views=3, downloads=0)` for `B`, `B`'s downloads value being the column
default. -/
theorem c5_merge_scenario :
    applyBatch .downloads (applyBatch .views [] [("A", 5), ("B", 3)]) [("A", 2)] =
      [Row.mk "A" 5 2, Row.mk "B" 3 downloadsDefault] ∧
    getRow (applyBatch .downloads (applyBatch .views [] [("A", 5), ("B", 3)])
      [("A", 2)]) "A" = some (Row.mk "A" 5 2) ∧
    getRow (applyBatch .downloads (applyBatch .views [] [("A", 5), ("B", 3)])
      [("A", 2)]) "B" = some (Row.mk "B" 3 0) := by
  refine ⟨rfl, rfl, rfl⟩

/-- C9: the accumulated batch list is cleared after every page's commit:
the `k`-th batched upsert submits exactly the pairs of page `k`, and if
every page response holds at most 100 pairs then so does every submitted
batch. -/
theorem c9_batch_contents (d : Dim) (stat : Json)
    (pages : Nat → List (String × Nat)) (t : Table) (n : Nat)
    (h : statCountDistinct (facetField d) stat = .ok (.num n)) :
    batchesOf (trOf (indexDim d stat pages t)) =
      (List.range (n / 100 + 1)).map pages ∧
    ((∀ k, (pages k).length ≤ 100) →
      ∀ b ∈ batchesOf (trOf (indexDim d stat pages t)), b.length ≤ 100) := by
  have hb : batchesOf (trOf (indexDim d stat pages t)) =
      (List.range (n / 100 + 1)).map pages := by
    rw [indexDim_completed h pages t]
    simp only [trOf]
    rw [batchesOf_statQuery, batchesOf_evChunks]
  refine ⟨hb, fun hlen b hbmem => ?_⟩
  rw [hb] at hbmem
  rcases List.mem_map.mp hbmem with ⟨k, _, rfl⟩
  exact hlen k

/-- Witness for C9: with two pages of one pair each, the two submitted
batches are exactly the two pages (no pair from page 0 reappears in the
batch of page 1). -/
theorem c9_batch_contents_witness :
    statCountDistinct (facetField .views) (statOk "id" 150) = .ok (.num 150) ∧
    batchesOf (trOf (indexDim .views (statOk "id" 150)
      (fun k => [(toString k, k)]) [])) = [[("0", 0)], [("1", 1)]] := by
  refine ⟨by rfl, ?_⟩
  rw [(c9_batch_contents .views (statOk "id" 150)
    (fun k => [(toString k, k)]) [] 150 (by rfl)).1]
  rfl

/-- C8: in every run in which both dimensions aggregate, the trace is the
full views trace followed by the full downloads trace (views completes
before any downloads processing); within a dimension the page fetches are in
strictly ascending offset order, each page is followed immediately by its
batched upsert and one commit (the trace is a sequence of
fetch/upsert/commit triples), and the number of commits equals the number of
pages, not one per run. -/
theorem c8_ordering (resp : HttpResp) (srv s : String) (vStat : Json)
    (vPages : Nat → List (String × Nat)) (dStat : Json)
    (dPages : Nat → List (String × Nat)) (t : Table) (nv nd : Nat)
    (hsh : get_statistics_shards srv resp = .ok s)
    (hv : statCountDistinct (facetField .views) vStat = .ok (.num nv))
    (hd : statCountDistinct (facetField .downloads) dStat = .ok (.num nd)) :
    traceOf (pipelineRun resp srv vStat vPages dStat dPages t) =
      dimTrace .views vPages nv ++ dimTrace .downloads dPages nd ∧
    List.Pairwise (· < ·)
      ((fetchParams (dimTrace .views vPages nv)).map Prod.fst) ∧
    List.Pairwise (· < ·)
      ((fetchParams (dimTrace .downloads dPages nd)).map Prod.fst) ∧
    commitCount (dimTrace .views vPages nv) = nv / 100 + 1 ∧
    commitCount (dimTrace .downloads dPages nd) = nd / 100 + 1 ∧
    (∀ e ∈ dimTrace .views vPages nv, evDim e = .views) ∧
    (∀ e ∈ dimTrace .downloads dPages nd, evDim e = .downloads) := by
  refine ⟨?_, pairwise_fetch_offsets _ _ _, pairwise_fetch_offsets _ _ _,
    commitCount_dimTrace _ _ _, commitCount_dimTrace _ _ _,
    evDim_dimTrace _ _ _, evDim_dimTrace _ _ _⟩
  simp only [pipelineRun, hsh, runDims, index_views, index_downloads,
    indexDim_completed hv vPages, indexDim_completed hd dPages, traceOf, dimTrace]

/-- Witness for C8, with one views page and one downloads page. -/
theorem c8_ordering_witness :
    get_statistics_shards "S" (statusResp []) = .ok "" ∧
    traceOf (pipelineRun (statusResp []) "S" (statOk "id" 1) (fun _ => [("A", 1)])
        (statOk "owningItem" 0) (fun _ => [("B", 2)]) []) =
      dimTrace .views (fun _ => [("A", 1)]) 1 ++
        dimTrace .downloads (fun _ => [("B", 2)]) 0 := by
  refine ⟨by rfl, ?_⟩
  exact (c8_ordering (statusResp []) "S" "" (statOk "id" 1) (fun _ => [("A", 1)])
    (statOk "owningItem" 0) (fun _ => [("B", 2)]) [] 1 0 (by rfl) (by rfl) (by rfl)).1

/-- C10: the clean "nothing to index" path of a dimension is taken exactly
when the `countDistinct` subscript chain raises `TypeError` (e.g. the stats
field value is `null`); a response lacking the `stats` key entirely raises
`KeyError`, which is not caught, so the run aborts as an unhandled failure
(exit code 1) instead of the clean exit-0 empty-dimension path. -/
theorem c10_error_paths :
    (∀ (d : Dim) (stat : Json) (pages : Nat → List (String × Nat)) (t : Table),
      (∃ tr t', indexDim d stat pages t = .emptyExit tr t') ↔
        statCountDistinct (facetField d) stat = .error .typeError) ∧
    (∀ (d : Dim) (fields : List (String × Json))
        (pages : Nat → List (String × Nat)) (t : Table),
      fields.lookup "stats" = none →
        indexDim d (.obj fields) pages t = .raised .keyError [Ev.statQuery d] t) ∧
    (∀ (resp : HttpResp) (srv s : String) (fields : List (String × Json))
        (vPages : Nat → List (String × Nat)) (dStat : Json)
        (dPages : Nat → List (String × Nat)) (t : Table),
      get_statistics_shards srv resp = .ok s → fields.lookup "stats" = none →
        pipelineRun resp srv (.obj fields) vPages dStat dPages t =
          .exn .keyError [Ev.statQuery .views] t ∧
        exitCodeOf (pipelineRun resp srv (.obj fields) vPages dStat dPages t) = 1) := by
  have hkey : ∀ (d : Dim) (fields : List (String × Json)),
      fields.lookup "stats" = none →
      statCountDistinct (facetField d) (.obj fields) = .error .keyError := by
    intro d fields h
    simp [statCountDistinct, pySubscript, h]
  refine ⟨?_, ?_, ?_⟩
  · intro d stat pages t
    constructor
    · rintro ⟨tr, t', heq⟩
      cases hs : statCountDistinct (facetField d) stat with
      | error e =>
        cases e with
        | typeError => rfl
        | keyError =>
          simp only [indexDim, hs] at heq
          exact IndexResult.noConfusion heq
        | valueError =>
          simp only [indexDim, hs] at heq
          exact IndexResult.noConfusion heq
      | ok j =>
        cases j <;> simp only [indexDim, hs] at heq <;>
          exact IndexResult.noConfusion heq
    · intro hs
      exact ⟨_, _, indexDim_emptyExit hs pages t⟩
  · intro d fields pages t h
    simp only [indexDim, hkey d fields h]
  · intro resp srv s fields vPages dStat dPages t hsh h
    have hrun : pipelineRun resp srv (.obj fields) vPages dStat dPages t =
        .exn .keyError [Ev.statQuery .views] t := by
      simp only [pipelineRun, hsh, runDims, index_views, indexDim,
        hkey .views fields h]
    exact ⟨hrun, by rw [hrun]; rfl⟩

/-- Witness for C10: a missing `stats` key aborts the whole run with
`KeyError` and exit code 1, while a `null` stats field takes the clean
empty-dimension path. -/
theorem c10_error_paths_witness :
    (([] : List (String × Json)).lookup "stats" = none) ∧
    pipelineRun (statusResp []) "S" (.obj []) (fun _ => []) Json.null
      (fun _ => []) [] = .exn .keyError [Ev.statQuery .views] [] ∧
    (∃ tr t', indexDim .views (statJson "id" Json.null) (fun _ => [])
      ([] : Table) = .emptyExit tr t') := by
  refine ⟨rfl, ?_, ?_⟩
  · exact (c10_error_paths.2.2 (statusResp []) "S" "" [] (fun _ => []) Json.null
      (fun _ => []) [] (by rfl) rfl).1
  · exact (c10_error_paths.1 .views (statJson "id" Json.null) (fun _ => []) []).mpr
      (by rfl)

/-- C6: for every shard-status response, the resolved shard set is the base
statistics core followed by exactly one target per core matching the
`statistics-YYYY` pattern, comma-joined in discovery order, with every
non-matching core excluded; when no core matches, the resolved set is the
empty string, and the pipeline accepts it and proceeds to the dimension runs
(it is a value, not an error). -/
theorem c6_shard_resolution (srv : String) (stFields : List (String × Json)) :
    (∀ c, c ∈ (stFields.map (·.1)).filter matchesShardCore ↔
      (c ∈ stFields.map (·.1) ∧ matchesShardCore c = true)) ∧
    ((stFields.map (·.1)).filter matchesShardCore = [] →
      get_statistics_shards srv (statusResp stFields) = .ok "") ∧
    ((stFields.map (·.1)).filter matchesShardCore ≠ [] →
      get_statistics_shards srv (statusResp stFields) =
        .ok (joinComma ((srv ++ "/statistics") ::
          ((stFields.map (·.1)).filter matchesShardCore).map
            (fun c => srv ++ "/" ++ c)))) ∧
    (∀ (vStat : Json) (vPages : Nat → List (String × Nat)) (dStat : Json)
        (dPages : Nat → List (String × Nat)) (t : Table),
      pipelineRun (statusResp stFields) srv vStat vPages dStat dPages t =
        runDims vStat vPages dStat dPages t) := by
  have hres : get_statistics_shards srv (statusResp stFields) =
      .ok (buildShards srv ((stFields.map (·.1)).filter matchesShardCore)) := by rfl
  refine ⟨fun c => List.mem_filter, ?_, ?_, ?_⟩
  · intro h
    rw [hres, h]
    rfl
  · intro h
    rw [hres, buildShards, if_pos (List.length_pos.mpr h), foldl_comma]
  · intro vStat vPages dStat dPages t
    simp only [pipelineRun, hres]

/-- Witness for C6: a status response holding the base core, one yearly
shard and an unrelated core resolves to the base target plus the single
yearly target. -/
theorem c6_shard_resolution_witness :
    (([("statistics", Json.null), ("statistics-2018", Json.null),
      ("foo", Json.null)].map (·.1)).filter matchesShardCore ≠ []) ∧
    get_statistics_shards "S" (statusResp [("statistics", Json.null),
      ("statistics-2018", Json.null), ("foo", Json.null)]) =
      .ok "S/statistics,S/statistics-2018" := by
  refine ⟨by decide, ?_⟩
  exact ((c6_shard_resolution "S" [("statistics", Json.null),
    ("statistics-2018", Json.null), ("foo", Json.null)]).2.2.1 (by decide)).trans
    (by rfl)

/-- C1 as stated is false: when the views dimension has no usable
distinct-count statistic, `index_views` calls `exit(0)`, which terminates
the whole process, so the downloads dimension never runs.  At this concrete
input the downloads statistics promise one facet pair `("A", 2)`, yet the
final state is the empty-views early exit: the trace holds no downloads
event and the table stays empty. -/
theorem c1_counterexample :
    pipelineRun (statusResp []) "S" (statJson "id" Json.null) (fun _ => [])
        (statOk "owningItem" 1) (fun _ => [("A", 2)]) [] =
      .earlyExit0 [Ev.statQuery .views] [] ∧
    exitCodeOf (pipelineRun (statusResp []) "S" (statJson "id" Json.null)
      (fun _ => []) (statOk "owningItem" 1) (fun _ => [("A", 2)]) []) = 0 ∧
    (∀ e ∈ traceOf (pipelineRun (statusResp []) "S" (statJson "id" Json.null)
      (fun _ => []) (statOk "owningItem" 1) (fun _ => [("A", 2)]) []),
      evDim e ≠ Dim.downloads) ∧
    tableOf (pipelineRun (statusResp []) "S" (statJson "id" Json.null)
      (fun _ => []) (statOk "owningItem" 1) (fun _ => [("A", 2)]) []) = [] := by
  have hrun : pipelineRun (statusResp []) "S" (statJson "id" Json.null)
      (fun _ => []) (statOk "owningItem" 1) (fun _ => [("A", 2)]) [] =
      .earlyExit0 [Ev.statQuery .views] [] := by rfl
  refine ⟨hrun, by rw [hrun]; rfl, ?_, by rw [hrun]; rfl⟩
  rw [hrun]
  intro e he
  have he' : e = Ev.statQuery .views := by simpa [traceOf] using he
  subst he'
  exact fun h => Dim.noConfusion h

/-- C1 amended: when the views dimension yields no usable distinct-count
statistic (the subscript chain raises `TypeError`), the pipeline treats it
as a clean exit of the whole process with code 0: the trace ends at the
views statistics query, the table is unchanged, and the downloads dimension
is skipped, not run. -/
theorem c1_empty_views_exits_process (resp : HttpResp) (srv s : String)
    (vStat : Json) (vPages : Nat → List (String × Nat)) (dStat : Json)
    (dPages : Nat → List (String × Nat)) (t : Table)
    (hsh : get_statistics_shards srv resp = .ok s)
    (hv : statCountDistinct (facetField .views) vStat = .error .typeError) :
    pipelineRun resp srv vStat vPages dStat dPages t =
      .earlyExit0 [Ev.statQuery .views] t ∧
    exitCodeOf (pipelineRun resp srv vStat vPages dStat dPages t) = 0 := by
  have hrun : pipelineRun resp srv vStat vPages dStat dPages t =
      .earlyExit0 [Ev.statQuery .views] t := by
    simp only [pipelineRun, hsh, runDims, index_views, indexDim_emptyExit hv vPages]
  exact ⟨hrun, by rw [hrun]; rfl⟩

/-- Witness for the amended C1. -/
theorem c1_empty_views_exits_process_witness :
    get_statistics_shards "S" (statusResp []) = .ok "" ∧
    statCountDistinct (facetField .views) (statJson "id" Json.null) =
      .error .typeError ∧
    pipelineRun (statusResp []) "S" (statJson "id" Json.null) (fun _ => [])
      Json.null (fun _ => []) [] = .earlyExit0 [Ev.statQuery .views] [] := by
  refine ⟨by rfl, by rfl, ?_⟩
  exact (c1_empty_views_exits_process (statusResp []) "S" "" (statJson "id" Json.null)
    (fun _ => []) Json.null (fun _ => []) [] (by rfl) (by rfl)).1

/-- C2 as stated is false for the non-success-status half: a shard-status
request answered with HTTP 500 is not fatal; `get_statistics_shards`
silently returns the empty shard string and the run proceeds (here to a
normal exit 0) with the degraded, unsharded query target. -/
theorem c2_counterexample :
    get_statistics_shards "S" ⟨500, none⟩ = .ok "" ∧
    exitCodeOf (pipelineRun ⟨500, none⟩ "S" (statOk "id" 0) (fun _ => [("A", 1)])
      (statOk "owningItem" 0) (fun _ => [("A", 1)]) []) = 0 := by
  have h1 : get_statistics_shards "S" ⟨500, none⟩ = .ok "" := by rfl
  refine ⟨h1, ?_⟩
  simp only [pipelineRun, h1, runDims, index_views, index_downloads,
    @indexDim_completed .views (statOk "id" 0) 0 (by rfl) (fun _ => [("A", 1)]),
    @indexDim_completed .downloads (statOk "owningItem" 0) 0 (by rfl)
      (fun _ => [("A", 1)]),
    exitCodeOf]

/-- C2 amended: only a malformed response body on a successful status is
fatal for shard resolution — it raises an uncaught `ValueError`, aborting
the run with a non-zero outcome before any indexing; a non-success HTTP
status is not fatal: shard resolution returns the empty shard string and the
run proceeds querying the base core unsharded. -/
theorem c2_shard_failure_modes (srv : String) (resp : HttpResp) :
    (resp.status ≠ 200 → get_statistics_shards srv resp = .ok "") ∧
    (resp.status = 200 → resp.body = none →
      get_statistics_shards srv resp = .error .valueError ∧
      ∀ (vStat : Json) (vPages : Nat → List (String × Nat)) (dStat : Json)
          (dPages : Nat → List (String × Nat)) (t : Table),
        pipelineRun resp srv vStat vPages dStat dPages t = .exn .valueError [] t ∧
        exitCodeOf (pipelineRun resp srv vStat vPages dStat dPages t) = 1) := by
  constructor
  · intro h
    simp [get_statistics_shards, h, buildShards]
  · intro h200 hb
    have hres : get_statistics_shards srv resp = .error .valueError := by
      simp [get_statistics_shards, h200, hb]
    refine ⟨hres, fun vStat vPages dStat dPages t => ⟨?_, ?_⟩⟩
    · simp only [pipelineRun, hres]
    · simp only [pipelineRun, hres, exitCodeOf]

/-- Witness for the amended C2: HTTP 500 yields the empty shard set even
though a yearly core exists, and HTTP 200 with an unparseable body raises
`ValueError`. -/
theorem c2_shard_failure_modes_witness :
    get_statistics_shards "S" ⟨500, some (Json.obj [("status",
      Json.obj [("statistics-2018", Json.null)])])⟩ = .ok "" ∧
    get_statistics_shards "S" ⟨200, none⟩ = .error .valueError :=
  ⟨(c2_shard_failure_modes "S" ⟨500, some (Json.obj [("status",
      Json.obj [("statistics-2018", Json.null)])])⟩).1 (by decide),
   ((c2_shard_failure_modes "S" ⟨200, none⟩).2 rfl rfl).1⟩

lemma runDims_table_idem (vStat : Json) (vPages : Nat → List (String × Nat))
    (dStat : Json) (dPages : Nat → List (String × Nat)) (t : Table) :
    tableOf (runDims vStat vPages dStat dPages
      (tableOf (runDims vStat vPages dStat dPages t))) =
    tableOf (runDims vStat vPages dStat dPages t) := by
  have hVD : Dim.views ≠ Dim.downloads := by decide
  cases hv : statCountDistinct (facetField Dim.views) vStat with
  | error e =>
    cases e <;>
      simp only [runDims, index_views, index_downloads, indexDim, hv, tableOf]
  | ok j =>
    cases j with
    | num n =>
      cases hd : statCountDistinct (facetField Dim.downloads) dStat with
      | error e =>
        cases e <;>
          · simp only [runDims, index_views, index_downloads, indexDim, hv, hd,
              pageLoop_zero, tableOf]
            exact applyBatch_idem _ _ _
      | ok jd =>
        cases jd with
        | num m =>
          simp only [runDims, index_views, index_downloads, indexDim, hv, hd,
            pageLoop_zero, tableOf]
          exact runTables_idem hVD _ _ _
        | null =>
          simp only [runDims, index_views, index_downloads, indexDim, hv, hd,
            pageLoop_zero, tableOf]
          exact applyBatch_idem _ _ _
        | bool b =>
          simp only [runDims, index_views, index_downloads, indexDim, hv, hd,
            pageLoop_zero, tableOf]
          exact applyBatch_idem _ _ _
        | str s =>
          simp only [runDims, index_views, index_downloads, indexDim, hv, hd,
            pageLoop_zero, tableOf]
          exact applyBatch_idem _ _ _
        | arr xs =>
          simp only [runDims, index_views, index_downloads, indexDim, hv, hd,
            pageLoop_zero, tableOf]
          exact applyBatch_idem _ _ _
        | obj fs =>
          simp only [runDims, index_views, index_downloads, indexDim, hv, hd,
            pageLoop_zero, tableOf]
          exact applyBatch_idem _ _ _
    | null =>
      simp only [runDims, index_views, index_downloads, indexDim, hv, tableOf]
    | bool b =>
      simp only [runDims, index_views, index_downloads, indexDim, hv, tableOf]
    | str s =>
      simp only [runDims, index_views, index_downloads, indexDim, hv, tableOf]
    | arr xs =>
      simp only [runDims, index_views, index_downloads, indexDim, hv, tableOf]
    | obj fs =>
      simp only [runDims, index_views, index_downloads, indexDim, hv, tableOf]

/-- C7: re-running the whole pipeline on identical upstream responses is a
no-op on the stored table — the second run's upserts set every counter to
the value it already holds. -/
theorem c7_pipeline_idempotent (resp : HttpResp) (srv : String) (vStat : Json)
    (vPages : Nat → List (String × Nat)) (dStat : Json)
    (dPages : Nat → List (String × Nat)) (t : Table) :
    tableOf (pipelineRun resp srv vStat vPages dStat dPages
      (tableOf (pipelineRun resp srv vStat vPages dStat dPages t))) =
    tableOf (pipelineRun resp srv vStat vPages dStat dPages t) := by
  cases hsh : get_statistics_shards srv resp with
  | error e => simp only [pipelineRun, hsh, tableOf]
  | ok s =>
    simp only [pipelineRun, hsh]
    exact runDims_table_idem vStat vPages dStat dPages t
